import Mathlib

/-!
Shallow embedding of `igdb_to_supabase.py` (video-game-backlog-project).

The script mirrors IGDB catalog data into a SQLite staging database:
  * `igdb_post`      : one HTTP POST to the catalog, JSON on 200, raises otherwise;
  * `fetch_games`    : offset pagination over the `games` endpoint;
  * `fetch_lookup`   : chunked lookup-by-id over a secondary endpoint;
  * `init_sqlite` / `get_state` / `set_state` : checkpoint table;
  * `save_to_sqlite` : bulk upsert of one fetched batch, one final commit.

SQLite tables are modelled as association lists in rowid order: an
`insert .. on conflict(id) do update` replaces the (unique, by primary key)
row in place; a fresh insert appends.  Association (junction) tables are
lists of pairs with `insert .. on conflict .. do nothing` semantics.
Remote records always carry their integer `id` (IGDB always returns it and
every table is keyed by it), so the input records model `id` as required;
the remaining scalar fields are `Option`-typed, `none` standing for an
absent key / JSON null (Python `g.get(..)` returning `None`, stored as SQL
NULL).  `rating` is a SQL `real`; nothing in the program computes with it,
so it is modelled as `Rat` data.
-/

/-- Scalar columns of one `igdb_games` row (the table also has the `id` key). -/
structure GameRow where
  name : Option String
  summary : Option String
  first_release_date : Option Int
  rating : Option Rat
  total_rating_count : Option Int
  updated_at : Option Int
  deriving DecidableEq

/-- Scalar columns of an `igdb_covers` / `igdb_screenshots` row. -/
structure ImageRow where
  url : Option String
  width : Option Int
  height : Option Int
  deriving DecidableEq

/-- A game dictionary as fetched from the `games` endpoint
(`fields id, name, summary, first_release_date, rating, total_rating_count,
genres, platforms, involved_companies, cover, screenshots, updated_at`).
The list-valued fields default to `[]`, mirroring `g.get("genres", []) or []`
(absent key and JSON null both become the empty list). -/
structure GameRec where
  id : Nat
  name : Option String := none
  summary : Option String := none
  first_release_date : Option Int := none
  rating : Option Rat := none
  total_rating_count : Option Int := none
  genres : List Nat := []
  platforms : List Nat := []
  involved_companies : List Nat := []
  cover : Option Nat := none
  screenshots : List Nat := []
  updated_at : Option Int := none
  deriving DecidableEq

/-- A genre or platform dictionary (`id`, `name`). -/
structure NameRec where
  id : Nat
  name : Option String := none
  deriving DecidableEq

/-- The value found under the `"company"` key of an involved-company
dictionary: either a nested dict (whose `"name"` is used) or some non-dict
value (then the outer `"name"` is used). -/
inductive CompanyField where
  | dictField (name : Option String)
  | nonDict
  deriving DecidableEq

/-- An involved-company dictionary as passed to `save_to_sqlite`. -/
structure CompanyRec where
  id : Nat
  name : Option String := none
  company : Option CompanyField := none
  deriving DecidableEq

/-- A cover or screenshot dictionary (`id`, `url`, `width`, `height`). -/
structure ImageRec where
  id : Nat
  url : Option String := none
  width : Option Int := none
  height : Option Int := none
  deriving DecidableEq

/-- The name stored for an involved-company record:
`c.get("company", \x7b\x7d).get("name") if isinstance(c.get("company"), dict)
else c.get("name")`. -/
def companyName (c : CompanyRec) : Option String :=
  match c.company with
  | some (CompanyField.dictField n) => n
  | some CompanyField.nonDict => c.name
  | none => c.name

/-- The SQLite staging database created by `init_sqlite`: the checkpoint
table, six entity tables keyed by remote id, four association tables. -/
structure DB where
  sync_state : List (String × String)
  igdb_games : List (Nat × GameRow)
  igdb_genres : List (Nat × Option String)
  igdb_platforms : List (Nat × Option String)
  igdb_companies : List (Nat × Option String)
  igdb_covers : List (Nat × ImageRow)
  igdb_screenshots : List (Nat × ImageRow)
  game_genres : List (Nat × Nat)
  game_platforms : List (Nat × Nat)
  game_companies : List (Nat × Nat)
  game_screenshots : List (Nat × Nat)
  deriving DecidableEq

/-- The freshly initialized database: `init_sqlite` creates every table
empty. -/
def emptyDB : DB :=
  ⟨[], [], [], [], [], [], [], [], [], [], []⟩

/-- `select value from t where key = ?` followed by `fetchone`: the first
row with the given key, if any. -/
def lookupKey {K V : Type} [DecidableEq K] (k : K) : List (K × V) → Option V
  | [] => none
  | (k', v) :: rest => if k' = k then some v else lookupKey k rest

/-- The key column of a table. -/
def keysOf {K V : Type} (t : List (K × V)) : List K :=
  t.map Prod.fst

/-- `insert into t(id, ..) values (..) on conflict(id) do update set ..`:
replace the scalar columns of the existing row in place, or append a new
row at the end (next rowid). -/
def upsertRow {K V : Type} [DecidableEq K] (k : K) (v : V) : List (K × V) → List (K × V)
  | [] => [(k, v)]
  | (k', v') :: rest =>
      if k' = k then (k, v) :: rest else (k', v') :: upsertRow k v rest

/-- `insert into t(a, b) values (?, ?) on conflict(a, b) do nothing`:
append the pair unless it is already a member. -/
def insertPair {P : Type} [DecidableEq P] (p : P) (t : List P) : List P :=
  if p ∈ t then t else t ++ [p]

/-- One `cur.execute(..)` statement issued by `save_to_sqlite`. -/
inductive SqlOp where
  | upsertGenre (id : Nat) (name : Option String)
  | upsertPlatform (id : Nat) (name : Option String)
  | upsertCompany (id : Nat) (name : Option String)
  | upsertCover (id : Nat) (row : ImageRow)
  | upsertScreenshot (id : Nat) (row : ImageRow)
  | upsertGame (id : Nat) (row : GameRow)
  | insertGameGenre (p : Nat × Nat)
  | insertGamePlatform (p : Nat × Nat)
  | insertGameCompany (p : Nat × Nat)
  | insertGameScreenshot (p : Nat × Nat)
  deriving DecidableEq

/-- Effect of one statement on the database. -/
def applyOp (op : SqlOp) (db : DB) : DB :=
  match op with
  | SqlOp.upsertGenre i n => { db with igdb_genres := upsertRow i n db.igdb_genres }
  | SqlOp.upsertPlatform i n => { db with igdb_platforms := upsertRow i n db.igdb_platforms }
  | SqlOp.upsertCompany i n => { db with igdb_companies := upsertRow i n db.igdb_companies }
  | SqlOp.upsertCover i r => { db with igdb_covers := upsertRow i r db.igdb_covers }
  | SqlOp.upsertScreenshot i r => { db with igdb_screenshots := upsertRow i r db.igdb_screenshots }
  | SqlOp.upsertGame i r => { db with igdb_games := upsertRow i r db.igdb_games }
  | SqlOp.insertGameGenre p => { db with game_genres := insertPair p db.game_genres }
  | SqlOp.insertGamePlatform p => { db with game_platforms := insertPair p db.game_platforms }
  | SqlOp.insertGameCompany p => { db with game_companies := insertPair p db.game_companies }
  | SqlOp.insertGameScreenshot p => { db with game_screenshots := insertPair p db.game_screenshots }

/-- Apply a sequence of statements in order. -/
def applyOps (ops : List SqlOp) (db : DB) : DB :=
  ops.foldl (fun d op => applyOp op d) db

/-- The scalar columns `save_to_sqlite` writes for a game: name, summary,
first_release_date, rating, total_rating_count, updated_at — and no cover
column (the `igdb_games` schema has none). -/
def gameRowOf (g : GameRec) : GameRow :=
  ⟨g.name, g.summary, g.first_release_date, g.rating, g.total_rating_count, g.updated_at⟩

/-- The statements issued for one game: the game upsert, then its
game_genres, game_platforms, game_companies and game_screenshots
association inserts, in source order. -/
def gameOps (g : GameRec) : List SqlOp :=
  SqlOp.upsertGame g.id (gameRowOf g)
    :: (g.genres.map fun genre_id => SqlOp.insertGameGenre (g.id, genre_id))
    ++ (g.platforms.map fun plat_id => SqlOp.insertGamePlatform (g.id, plat_id))
    ++ (g.involved_companies.map fun ic => SqlOp.insertGameCompany (g.id, ic))
    ++ (g.screenshots.map fun s_id => SqlOp.insertGameScreenshot (g.id, s_id))

/-- The full statement sequence of one `save_to_sqlite` call: genre,
platform, company, cover and screenshot upserts, then per-game statements. -/
def saveOps (games : List GameRec) (genres platforms : List NameRec)
    (companies : List CompanyRec) (covers screenshots : List ImageRec) : List SqlOp :=
  (genres.map fun g => SqlOp.upsertGenre g.id g.name)
    ++ (platforms.map fun p => SqlOp.upsertPlatform p.id p.name)
    ++ (companies.map fun c => SqlOp.upsertCompany c.id (companyName c))
    ++ (covers.map fun cov => SqlOp.upsertCover cov.id ⟨cov.url, cov.width, cov.height⟩)
    ++ (screenshots.map fun s => SqlOp.upsertScreenshot s.id ⟨s.url, s.width, s.height⟩)
    ++ (games.map gameOps).flatten

/-- The database state produced by one `save_to_sqlite` pass (as committed
at its end). -/
def saveDB (games : List GameRec) (genres platforms : List NameRec)
    (companies : List CompanyRec) (covers screenshots : List ImageRec)
    (db : DB) : DB :=
  applyOps (saveOps games genres platforms companies covers screenshots) db

/-- Well-formedness maintained by SQLite primary keys: no entity table has
two rows with the same id, and no key row is duplicated. -/
def WF (db : DB) : Prop :=
  (keysOf db.sync_state).Nodup ∧
  (keysOf db.igdb_games).Nodup ∧
  (keysOf db.igdb_genres).Nodup ∧
  (keysOf db.igdb_platforms).Nodup ∧
  (keysOf db.igdb_companies).Nodup ∧
  (keysOf db.igdb_covers).Nodup ∧
  (keysOf db.igdb_screenshots).Nodup

instance (db : DB) : Decidable (WF db) := by
  unfold WF; infer_instance

/-- `FETCH_LIMIT = 500`, the IGDB maximum page size. -/
def FETCH_LIMIT : Nat := 500

/-- The `where` clause of a games page request.  Python's `if
since_updated_at:` is truthy only for a non-`None`, non-zero value, so both
`None` and `0` produce an empty clause. -/
def gamesWhereClause (since_updated_at : Option Int) : String :=
  match since_updated_at with
  | none => ""
  | some v => if v = 0 then "" else s!"where updated_at >= {v};"

/-- The Apicalypse query text `fetch_games` sends for one page (the
f-string of the source, whitespace included). -/
def gamesQuery (since_updated_at : Option Int) (offset : Nat) : String :=
  let w := gamesWhereClause since_updated_at
  let lim := FETCH_LIMIT
  s!"\n            fields id, name, summary, first_release_date, rating, total_rating_count, genres, platforms, involved_companies, cover, screenshots, updated_at;\n            {w}\n            limit {lim};\n            offset {offset};\n        "

/-- The pagination loop of `fetch_games`, from a given offset.  The remote
is a function `post` from query text to the parsed result list; the first
component records the queries issued, in order.  The Python loop is
`while True`; `fuel` bounds the recursion and the theorems hold for any
sufficient fuel. -/
def fetchGamesAux (post : String → List GameRec) (since_updated_at : Option Int) :
    Nat → Nat → List String × List GameRec
  | 0, _ => ([], [])
  | fuel + 1, offset =>
    let q := gamesQuery since_updated_at offset
    let batch := post q
    if batch.isEmpty then ([q], [])
    else
      let rest := fetchGamesAux post since_updated_at fuel (offset + FETCH_LIMIT)
      (q :: rest.1, batch ++ rest.2)

/-- `fetch_games(token, since_updated_at)`: paginate from offset 0,
stopping at the first empty page; returns (queries issued, accumulated
games). -/
def fetch_games (post : String → List GameRec) (since_updated_at : Option Int)
    (fuel : Nat) : List String × List GameRec :=
  fetchGamesAux post since_updated_at fuel 0

/-- `CHUNK = 500`, the id-lookup chunk size of `fetch_lookup`. -/
def CHUNK : Nat := 500

/-- The query text `fetch_lookup` sends for one id chunk:
`fields *; where id = (i1,i2,...); limit n;`. -/
def lookupQuery (chunk : List Nat) : String :=
  let idsText := String.intercalate "," (chunk.map toString)
  let n := chunk.length
  s!"fields *; where id = ({idsText}); limit {n};"

/-- `ids[i:i+CHUNK]` slices of `for i in range(0, len(ids), CHUNK)`. -/
def chunksOf (l : List Nat) : List (List Nat) :=
  match l with
  | [] => []
  | a :: rest => ((a :: rest).take CHUNK) :: chunksOf ((a :: rest).drop CHUNK)
termination_by l.length
decreasing_by simp [CHUNK]; omega

/-- `fetch_lookup(token, endpoint, ids)`: short-circuit on an empty id
list, else deduplicate (`list(set(ids))`; a Python set iterates in an
unspecified order, modelled here as last-occurrence order via
`List.dedup` — no stated property depends on the order) and fetch chunk by
chunk, extending one result list.  Returns (queries issued, results). -/
def fetch_lookup {α : Type} (post : String → List α) (ids : List Nat) :
    List String × List α :=
  if ids.isEmpty then ([], [])
  else
    let d := ids.dedup
    let chunks := chunksOf d
    (chunks.map lookupQuery, (chunks.map fun ch => post (lookupQuery ch)).flatten)

/-- One HTTP response: status code, raw body text, and the body as parsed
by `r.json()`. -/
structure HttpResponse (α : Type) where
  status_code : Nat
  text : String
  json : α
  deriving DecidableEq

/-- Outcome of one `igdb_post` call: how many HTTP requests it issued and
either the parsed JSON or the raised exception's message. -/
structure PostOutcome (α : Type) where
  requests : Nat
  result : Except String α

/-- The message of the exception raised on a non-200 status:
`IGDB error \x7bstatus\x7d: \x7bbody\x7d`. -/
def igdbErrorText (status : Nat) (body : String) : String :=
  s!"IGDB error {status}: {body}"

/-- `igdb_post(endpoint, query, token)`: issue exactly one POST (`send`
yields its response); return `r.json()` when the status is 200, raise
otherwise.  No retry: `requests = 1` always. -/
def igdb_post {α : Type} (send : Unit → HttpResponse α) : PostOutcome α :=
  let r := send ()
  { requests := 1
    result :=
      if r.status_code = 200 then Except.ok r.json
      else Except.error (igdbErrorText r.status_code r.text) }

/-- Modelled from the spec's words, for comparison with the source's
`status_code == 200` test: a "success" HTTP status in the usual sense is
any 2xx status. -/
def isHttpSuccess (status : Nat) : Prop :=
  200 ≤ status ∧ status < 300

instance (status : Nat) : Decidable (isHttpSuccess status) := by
  unfold isHttpSuccess; infer_instance

/-- A SQLite connection: the uncommitted state seen by its own cursor
(`pending`) and the durable state on disk as of the last commit
(`durable`). -/
structure Conn where
  pending : DB
  durable : DB
  deriving DecidableEq

/-- `get_state(conn, key, default)`: `select value from sync_state where
key = ?`, returning the row's value or the default.  The cursor reads this
connection's current state. -/
def get_state (conn : Conn) (key : String) (default : Option String) : Option String :=
  match lookupKey key conn.pending.sync_state with
  | some v => some v
  | none => default

/-- `set_state(conn, key, value)`: `insert into sync_state(key, value)
values(?, ?) on conflict(key) do update set value=excluded.value`, then
`conn.commit()` — durable before returning.  The source stores
`str(value)`; values are modelled as the stored strings. -/
def set_state (conn : Conn) (key : String) (value : String) : Conn :=
  let p := { conn.pending with sync_state := upsertRow key value conn.pending.sync_state }
  { pending := p, durable := p }

/-- One observable database effect of `save_to_sqlite`: a statement
execution or a commit. -/
inductive Effect where
  | exec (op : SqlOp)
  | commit
  deriving DecidableEq

/-- Whether an effect is a commit. -/
def isCommit : Effect → Bool
  | Effect.commit => true
  | Effect.exec _ => false

/-- Number of commits in a trace. -/
def commitCount (tr : List Effect) : Nat :=
  (tr.filter isCommit).length

/-- Run the statements of a pass in order against the connection's pending
state.  `failAt = some i` makes the i-th `cur.execute` raise (disk or
constraint error): execution stops there, the raised exception propagates
(`false`), and nothing further — in particular no commit — happens. -/
def runOps (failAt : Option Nat) : List SqlOp → Nat → DB → DB × List Effect × Bool
  | [], _, db => (db, [], true)
  | op :: rest, i, db =>
    if failAt = some i then (db, [], false)
    else
      let r := runOps failAt rest (i + 1) (applyOp op db)
      (r.1, Effect.exec op :: r.2.1, r.2.2)

/-- `save_to_sqlite(conn, games, genres, platforms, companies, covers,
screenshots)`: execute every upsert/insert statement in source order, then
`conn.commit()` exactly once at the end; a raised statement aborts before
the commit, leaving the durable state untouched.  Returns the connection
and the effect trace. -/
def save_to_sqlite (failAt : Option Nat) (conn : Conn) (games : List GameRec)
    (genres platforms : List NameRec) (companies : List CompanyRec)
    (covers screenshots : List ImageRec) : Conn × List Effect :=
  let ops := saveOps games genres platforms companies covers screenshots
  let r := runOps failAt ops 0 conn.pending
  if r.2.2 then ({ pending := r.1, durable := r.1 }, r.2.1 ++ [Effect.commit])
  else ({ pending := r.1, durable := conn.durable }, r.2.1)

/-- The last value written for a key by a sequence of (key, value) upserts,
if any. -/
def lastVal {K V : Type} [DecidableEq K] (k : K) : List (K × V) → Option V
  | [] => none
  | (k', v) :: rest =>
    match lastVal k rest with
    | some w => some w
    | none => if k' = k then some v else none

/-- Apply a sequence of keyed upserts to one table, in order. -/
def applyUpserts {K V : Type} [DecidableEq K] (ops : List (K × V)) (t : List (K × V)) :
    List (K × V) :=
  ops.foldl (fun acc kv => upsertRow kv.1 kv.2 acc) t

/-- Apply a sequence of insert-if-absent pair inserts to one table, in
order. -/
def applyInserts {P : Type} [DecidableEq P] (ps : List P) (t : List P) : List P :=
  ps.foldl (fun acc p => insertPair p acc) t

/-- The (id, name) payload of a genre upsert statement, if the statement is
one. -/
def genreKV : SqlOp → Option (Nat × Option String)
  | SqlOp.upsertGenre i n => some (i, n)
  | _ => none

/-- The (id, name) payload of a platform upsert statement. -/
def platformKV : SqlOp → Option (Nat × Option String)
  | SqlOp.upsertPlatform i n => some (i, n)
  | _ => none

/-- The (id, name) payload of a company upsert statement. -/
def companyKV : SqlOp → Option (Nat × Option String)
  | SqlOp.upsertCompany i n => some (i, n)
  | _ => none

/-- The (id, row) payload of a cover upsert statement. -/
def coverKV : SqlOp → Option (Nat × ImageRow)
  | SqlOp.upsertCover i r => some (i, r)
  | _ => none

/-- The (id, row) payload of a screenshot upsert statement. -/
def screenshotKV : SqlOp → Option (Nat × ImageRow)
  | SqlOp.upsertScreenshot i r => some (i, r)
  | _ => none

/-- The (id, row) payload of a game upsert statement. -/
def gameKV : SqlOp → Option (Nat × GameRow)
  | SqlOp.upsertGame i r => some (i, r)
  | _ => none

/-- The pair of a game_genres insert statement. -/
def genrePairOf : SqlOp → Option (Nat × Nat)
  | SqlOp.insertGameGenre p => some p
  | _ => none

/-- The pair of a game_platforms insert statement. -/
def platformPairOf : SqlOp → Option (Nat × Nat)
  | SqlOp.insertGamePlatform p => some p
  | _ => none

/-- The pair of a game_companies insert statement. -/
def companyPairOf : SqlOp → Option (Nat × Nat)
  | SqlOp.insertGameCompany p => some p
  | _ => none

/-- The pair of a game_screenshots insert statement. -/
def screenshotPairOf : SqlOp → Option (Nat × Nat)
  | SqlOp.insertGameScreenshot p => some p
  | _ => none

/-- A game stripped of its `cover` reference: the only part of a fetched
game that `save_to_sqlite` reads. -/
def eraseCover (g : GameRec) : GameRec :=
  { g with cover := none }

theorem applyOps_nil (db : DB) : applyOps [] db = db := rfl

theorem applyOps_cons (op : SqlOp) (ops : List SqlOp) (db : DB) :
    applyOps (op :: ops) db = applyOps ops (applyOp op db) := rfl

theorem applyUpserts_nil {K V : Type} [DecidableEq K] (t : List (K × V)) :
    applyUpserts [] t = t := rfl

theorem applyUpserts_cons {K V : Type} [DecidableEq K] (kv : K × V)
    (ops : List (K × V)) (t : List (K × V)) :
    applyUpserts (kv :: ops) t = applyUpserts ops (upsertRow kv.1 kv.2 t) := rfl

theorem applyInserts_nil {P : Type} [DecidableEq P] (t : List P) :
    applyInserts [] t = t := rfl

theorem applyInserts_cons {P : Type} [DecidableEq P] (p : P) (ps : List P) (t : List P) :
    applyInserts (p :: ps) t = applyInserts ps (insertPair p t) := rfl

theorem lookupKey_upsertRow {K V : Type} [DecidableEq K] (k q : K) (v : V)
    (l : List (K × V)) :
    lookupKey q (upsertRow k v l) = if k = q then some v else lookupKey q l := by
  induction l with
  | nil =>
    simp only [upsertRow, lookupKey]
  | cons hd tl ih =>
    obtain ⟨k', v'⟩ := hd
    by_cases hk : k' = k
    · subst hk
      simp only [upsertRow, if_pos rfl, lookupKey]
      by_cases hq : k' = q <;> simp [hq]
    · simp only [upsertRow, if_neg hk, lookupKey, ih]
      by_cases hq : k' = q
      · subst hq
        have : ¬ k = k' := fun h => hk h.symm
        simp [this]
      · simp [hq]

theorem keysOf_upsertRow {K V : Type} [DecidableEq K] (k : K) (v : V)
    (l : List (K × V)) :
    keysOf (upsertRow k v l) =
      if k ∈ keysOf l then keysOf l else keysOf l ++ [k] := by
  induction l with
  | nil => simp [upsertRow, keysOf]
  | cons hd tl ih =>
    obtain ⟨k', v'⟩ := hd
    by_cases hk : k' = k
    · subst hk
      simp [upsertRow, keysOf]
    · have hk2 : ¬ k = k' := fun h => hk h.symm
      simp only [upsertRow, if_neg hk, keysOf, List.map_cons] at ih ⊢
      rw [ih]
      by_cases hmem : k ∈ tl.map Prod.fst
      · simp [hmem, hk2]
      · simp [hmem, hk2]

theorem keysOf_nodup_upsertRow {K V : Type} [DecidableEq K] (k : K) (v : V)
    (l : List (K × V)) (h : (keysOf l).Nodup) :
    (keysOf (upsertRow k v l)).Nodup := by
  rw [keysOf_upsertRow]
  by_cases hmem : k ∈ keysOf l
  · simpa [hmem]
  · simp only [hmem, if_false]
    exact List.Nodup.append h (List.nodup_singleton k)
      (by simpa [List.disjoint_singleton] using hmem)

theorem lookupKey_eq_none_of_not_mem {K V : Type} [DecidableEq K] (q : K)
    (l : List (K × V)) (h : q ∉ keysOf l) : lookupKey q l = none := by
  induction l with
  | nil => rfl
  | cons hd tl ih =>
    obtain ⟨k', v'⟩ := hd
    simp only [keysOf, List.map_cons, List.mem_cons, not_or] at h
    have hne : k' ≠ q := fun hh => h.1 hh.symm
    simp only [lookupKey, if_neg hne, ih (by simpa [keysOf] using h.2)]

theorem mem_keysOf_of_lookupKey {K V : Type} [DecidableEq K] (q : K)
    (l : List (K × V)) (v : V) (h : lookupKey q l = some v) : q ∈ keysOf l := by
  by_contra hmem
  rw [lookupKey_eq_none_of_not_mem q l hmem] at h
  exact Option.noConfusion h

theorem lookupKey_applyUpserts {K V : Type} [DecidableEq K] (q : K)
    (ops : List (K × V)) (t : List (K × V)) :
    lookupKey q (applyUpserts ops t) =
      match lastVal q ops with
      | some w => some w
      | none => lookupKey q t := by
  induction ops generalizing t with
  | nil => simp [applyUpserts_nil, lastVal]
  | cons hd tl ih =>
    obtain ⟨k, v⟩ := hd
    rw [applyUpserts_cons, ih]
    simp only [lastVal]
    cases hlv : lastVal q tl with
    | some w => rfl
    | none =>
      simp only [lookupKey_upsertRow]
      by_cases hq : k = q <;> simp [hq]

theorem lastVal_isSome_of_mem {K V : Type} [DecidableEq K] (k : K) (v : V)
    (ops : List (K × V)) (h : (k, v) ∈ ops) : (lastVal k ops).isSome := by
  induction ops with
  | nil => cases h
  | cons hd tl ih =>
    obtain ⟨k', v'⟩ := hd
    simp only [lastVal]
    rcases List.mem_cons.mp h with heq | hmem
    · cases heq
      cases hlv : lastVal k tl with
      | some w => rfl
      | none => simp
    · have := ih hmem
      cases hlv : lastVal k tl with
      | some w => rfl
      | none => rw [hlv] at this; cases this

theorem keysOf_applyUpserts_of_subset {K V : Type} [DecidableEq K]
    (ops : List (K × V)) (t : List (K × V))
    (h : ∀ p ∈ ops, p.1 ∈ keysOf t) :
    keysOf (applyUpserts ops t) = keysOf t := by
  induction ops generalizing t with
  | nil => rfl
  | cons hd tl ih =>
    obtain ⟨k, v⟩ := hd
    rw [applyUpserts_cons]
    have hk : k ∈ keysOf t := h (k, v) (List.mem_cons_self ..)
    have hkeys : keysOf (upsertRow k v t) = keysOf t := by
      rw [keysOf_upsertRow, if_pos hk]
    rw [ih (upsertRow k v t) (fun p hp => hkeys ▸ h p (List.mem_cons_of_mem _ hp)), hkeys]

theorem keysOf_nodup_applyUpserts {K V : Type} [DecidableEq K]
    (ops : List (K × V)) (t : List (K × V)) (h : (keysOf t).Nodup) :
    (keysOf (applyUpserts ops t)).Nodup := by
  induction ops generalizing t with
  | nil => exact h
  | cons hd tl ih =>
    rw [applyUpserts_cons]
    exact ih _ (keysOf_nodup_upsertRow _ _ _ h)

theorem assoc_ext {K V : Type} [DecidableEq K] :
    ∀ (l1 l2 : List (K × V)), keysOf l1 = keysOf l2 → (keysOf l1).Nodup →
      (∀ q, lookupKey q l1 = lookupKey q l2) → l1 = l2
  | [], l2, hkeys, _, _ => by
    have : keysOf l2 = [] := hkeys.symm
    cases l2 with
    | nil => rfl
    | cons hd tl => simp [keysOf] at this
  | (k, v) :: r1, l2, hkeys, hnd, hlook => by
    cases l2 with
    | nil => simp [keysOf] at hkeys
    | cons hd2 r2 =>
      obtain ⟨k2, v2⟩ := hd2
      simp only [keysOf, List.map_cons, List.cons.injEq] at hkeys
      obtain ⟨hk, hrest⟩ := hkeys
      subst hk
      have hv : v = v2 := by
        have := hlook k
        simpa [lookupKey] using this
      subst hv
      simp only [keysOf, List.map_cons, List.nodup_cons] at hnd
      have htl : ∀ q, lookupKey q r1 = lookupKey q r2 := by
        intro q
        by_cases hq : q = k
        · subst hq
          rw [lookupKey_eq_none_of_not_mem q r1 (by simpa [keysOf] using hnd.1),
              lookupKey_eq_none_of_not_mem q r2 (by simpa [keysOf, ← hrest] using hnd.1)]
        · have := hlook q
          have hne : k ≠ q := fun hh => hq hh.symm
          simpa [lookupKey, if_neg hne] using this
      rw [assoc_ext r1 r2 hrest hnd.2 htl]

theorem applyUpserts_idem {K V : Type} [DecidableEq K]
    (ops : List (K × V)) (t : List (K × V)) (h : (keysOf t).Nodup) :
    applyUpserts ops (applyUpserts ops t) = applyUpserts ops t := by
  have hsub : ∀ p ∈ ops, p.1 ∈ keysOf (applyUpserts ops t) := by
    intro p hp
    have hlv := lastVal_isSome_of_mem p.1 p.2 ops hp
    cases hlvv : lastVal p.1 ops with
    | none => rw [hlvv] at hlv; cases hlv
    | some w =>
      apply mem_keysOf_of_lookupKey p.1 _ w
      rw [lookupKey_applyUpserts, hlvv]
  apply assoc_ext
  · exact keysOf_applyUpserts_of_subset ops _ hsub
  · exact keysOf_nodup_applyUpserts ops _ (keysOf_nodup_applyUpserts ops t h)
  · intro q
    rw [lookupKey_applyUpserts, lookupKey_applyUpserts]
    cases lastVal q ops <;> rfl

theorem insertPair_of_mem {P : Type} [DecidableEq P] (p : P) (t : List P)
    (h : p ∈ t) : insertPair p t = t := by
  simp [insertPair, h]

theorem mem_insertPair_left {P : Type} [DecidableEq P] (p : P) (t : List P) :
    p ∈ insertPair p t := by
  by_cases h : p ∈ t <;> simp [insertPair, h]

theorem mem_insertPair_of_mem {P : Type} [DecidableEq P] (q p : P) (t : List P)
    (h : q ∈ t) : q ∈ insertPair p t := by
  by_cases hp : p ∈ t <;> simp [insertPair, hp, h]

theorem mem_applyInserts_of_mem {P : Type} [DecidableEq P] (q : P)
    (ps : List P) (t : List P) (h : q ∈ t) : q ∈ applyInserts ps t := by
  induction ps generalizing t with
  | nil => exact h
  | cons hd tl ih =>
    rw [applyInserts_cons]
    exact ih _ (mem_insertPair_of_mem q hd t h)

theorem mem_applyInserts_of_mem_ops {P : Type} [DecidableEq P] (p : P)
    (ps : List P) (t : List P) (h : p ∈ ps) : p ∈ applyInserts ps t := by
  induction ps generalizing t with
  | nil => cases h
  | cons hd tl ih =>
    rw [applyInserts_cons]
    rcases List.mem_cons.mp h with heq | hmem
    · subst heq
      exact mem_applyInserts_of_mem p tl _ (mem_insertPair_left p t)
    · exact ih _ hmem

theorem applyInserts_of_subset {P : Type} [DecidableEq P] (ps : List P)
    (t : List P) (h : ∀ p ∈ ps, p ∈ t) : applyInserts ps t = t := by
  induction ps with
  | nil => rfl
  | cons hd tl ih =>
    rw [applyInserts_cons, insertPair_of_mem hd t (h hd (List.mem_cons_self ..))]
    exact ih (fun p hp => h p (List.mem_cons_of_mem _ hp))

theorem applyInserts_idem {P : Type} [DecidableEq P] (ps : List P) (t : List P) :
    applyInserts ps (applyInserts ps t) = applyInserts ps t :=
  applyInserts_of_subset ps _ (fun p hp => mem_applyInserts_of_mem_ops p ps t hp)

theorem sync_state_applyOps (ops : List SqlOp) (db : DB) :
    (applyOps ops db).sync_state = db.sync_state := by
  induction ops generalizing db with
  | nil => rfl
  | cons op tl ih =>
    rw [applyOps_cons, ih]
    cases op <;> rfl

theorem igdb_genres_applyOps (ops : List SqlOp) (db : DB) :
    (applyOps ops db).igdb_genres =
      applyUpserts (ops.filterMap genreKV) db.igdb_genres := by
  induction ops generalizing db with
  | nil => rfl
  | cons op tl ih =>
    rw [applyOps_cons, ih]
    cases op <;> simp [applyOp, genreKV, applyUpserts_cons]

theorem igdb_platforms_applyOps (ops : List SqlOp) (db : DB) :
    (applyOps ops db).igdb_platforms =
      applyUpserts (ops.filterMap platformKV) db.igdb_platforms := by
  induction ops generalizing db with
  | nil => rfl
  | cons op tl ih =>
    rw [applyOps_cons, ih]
    cases op <;> simp [applyOp, platformKV, applyUpserts_cons]

theorem igdb_companies_applyOps (ops : List SqlOp) (db : DB) :
    (applyOps ops db).igdb_companies =
      applyUpserts (ops.filterMap companyKV) db.igdb_companies := by
  induction ops generalizing db with
  | nil => rfl
  | cons op tl ih =>
    rw [applyOps_cons, ih]
    cases op <;> simp [applyOp, companyKV, applyUpserts_cons]

theorem igdb_covers_applyOps (ops : List SqlOp) (db : DB) :
    (applyOps ops db).igdb_covers =
      applyUpserts (ops.filterMap coverKV) db.igdb_covers := by
  induction ops generalizing db with
  | nil => rfl
  | cons op tl ih =>
    rw [applyOps_cons, ih]
    cases op <;> simp [applyOp, coverKV, applyUpserts_cons]

theorem igdb_screenshots_applyOps (ops : List SqlOp) (db : DB) :
    (applyOps ops db).igdb_screenshots =
      applyUpserts (ops.filterMap screenshotKV) db.igdb_screenshots := by
  induction ops generalizing db with
  | nil => rfl
  | cons op tl ih =>
    rw [applyOps_cons, ih]
    cases op <;> simp [applyOp, screenshotKV, applyUpserts_cons]

theorem igdb_games_applyOps (ops : List SqlOp) (db : DB) :
    (applyOps ops db).igdb_games =
      applyUpserts (ops.filterMap gameKV) db.igdb_games := by
  induction ops generalizing db with
  | nil => rfl
  | cons op tl ih =>
    rw [applyOps_cons, ih]
    cases op <;> simp [applyOp, gameKV, applyUpserts_cons]

theorem game_genres_applyOps (ops : List SqlOp) (db : DB) :
    (applyOps ops db).game_genres =
      applyInserts (ops.filterMap genrePairOf) db.game_genres := by
  induction ops generalizing db with
  | nil => rfl
  | cons op tl ih =>
    rw [applyOps_cons, ih]
    cases op <;> simp [applyOp, genrePairOf, applyInserts_cons]

theorem game_platforms_applyOps (ops : List SqlOp) (db : DB) :
    (applyOps ops db).game_platforms =
      applyInserts (ops.filterMap platformPairOf) db.game_platforms := by
  induction ops generalizing db with
  | nil => rfl
  | cons op tl ih =>
    rw [applyOps_cons, ih]
    cases op <;> simp [applyOp, platformPairOf, applyInserts_cons]

theorem game_companies_applyOps (ops : List SqlOp) (db : DB) :
    (applyOps ops db).game_companies =
      applyInserts (ops.filterMap companyPairOf) db.game_companies := by
  induction ops generalizing db with
  | nil => rfl
  | cons op tl ih =>
    rw [applyOps_cons, ih]
    cases op <;> simp [applyOp, companyPairOf, applyInserts_cons]

theorem game_screenshots_applyOps (ops : List SqlOp) (db : DB) :
    (applyOps ops db).game_screenshots =
      applyInserts (ops.filterMap screenshotPairOf) db.game_screenshots := by
  induction ops generalizing db with
  | nil => rfl
  | cons op tl ih =>
    rw [applyOps_cons, ih]
    cases op <;> simp [applyOp, screenshotPairOf, applyInserts_cons]

theorem DB_eq_of_fields (db1 db2 : DB)
    (h1 : db1.sync_state = db2.sync_state)
    (h2 : db1.igdb_games = db2.igdb_games)
    (h3 : db1.igdb_genres = db2.igdb_genres)
    (h4 : db1.igdb_platforms = db2.igdb_platforms)
    (h5 : db1.igdb_companies = db2.igdb_companies)
    (h6 : db1.igdb_covers = db2.igdb_covers)
    (h7 : db1.igdb_screenshots = db2.igdb_screenshots)
    (h8 : db1.game_genres = db2.game_genres)
    (h9 : db1.game_platforms = db2.game_platforms)
    (h10 : db1.game_companies = db2.game_companies)
    (h11 : db1.game_screenshots = db2.game_screenshots) : db1 = db2 := by
  cases db1
  cases db2
  simp_all

theorem applyOps_idem (ops : List SqlOp) (db : DB) (h : WF db) :
    applyOps ops (applyOps ops db) = applyOps ops db := by
  obtain ⟨hs, hg, hge, hp, hc, hcov, hscr⟩ := h
  apply DB_eq_of_fields
  · rw [sync_state_applyOps, sync_state_applyOps]
  · rw [igdb_games_applyOps, igdb_games_applyOps, applyUpserts_idem _ _ hg]
  · rw [igdb_genres_applyOps, igdb_genres_applyOps, applyUpserts_idem _ _ hge]
  · rw [igdb_platforms_applyOps, igdb_platforms_applyOps, applyUpserts_idem _ _ hp]
  · rw [igdb_companies_applyOps, igdb_companies_applyOps, applyUpserts_idem _ _ hc]
  · rw [igdb_covers_applyOps, igdb_covers_applyOps, applyUpserts_idem _ _ hcov]
  · rw [igdb_screenshots_applyOps, igdb_screenshots_applyOps, applyUpserts_idem _ _ hscr]
  · rw [game_genres_applyOps, game_genres_applyOps, applyInserts_idem]
  · rw [game_platforms_applyOps, game_platforms_applyOps, applyInserts_idem]
  · rw [game_companies_applyOps, game_companies_applyOps, applyInserts_idem]
  · rw [game_screenshots_applyOps, game_screenshots_applyOps, applyInserts_idem]

/-- C1: Upserting is idempotent: for every fixed input batch (games,
genres, platforms, companies, covers, screenshots), running the bulk
upsert of `save_to_sqlite` twice on the same initial store (well-formed,
as SQLite primary keys guarantee) leaves every entity table and every
association table in exactly the same state as running it once; in
particular re-upserting an existing id overwrites the scalar fields
without duplicating the row, and inserting an existing association pair
is a no-op. -/
theorem saveDB_idempotent (games : List GameRec) (genres platforms : List NameRec)
    (companies : List CompanyRec) (covers screenshots : List ImageRec)
    (db : DB) (h : WF db) :
    saveDB games genres platforms companies covers screenshots
        (saveDB games genres platforms companies covers screenshots db) =
      saveDB games genres platforms companies covers screenshots db ∧
    (∀ (k : Nat) (r w : GameRow) (t : List (Nat × GameRow)), lookupKey k t = some w →
      keysOf (upsertRow k r t) = keysOf t ∧ lookupKey k (upsertRow k r t) = some r) ∧
    (∀ (p : Nat × Nat) (t : List (Nat × Nat)), p ∈ t → insertPair p t = t) := by
  refine ⟨applyOps_idem _ db h, ?_, ?_⟩
  · intro k r w t hw
    constructor
    · rw [keysOf_upsertRow, if_pos (mem_keysOf_of_lookupKey k t w hw)]
    · rw [lookupKey_upsertRow, if_pos rfl]
  · intro p t hp
    exact insertPair_of_mem p t hp

/-- Witness for C1 at a concrete batch and the empty store. -/
theorem saveDB_idempotent_witness :
    saveDB [{ id := 1, name := some "Halo", genres := [7], platforms := [3] }]
        [{ id := 7, name := some "Shooter" }] [{ id := 3, name := some "Xbox" }] [] [] []
        (saveDB [{ id := 1, name := some "Halo", genres := [7], platforms := [3] }]
          [{ id := 7, name := some "Shooter" }] [{ id := 3, name := some "Xbox" }] [] [] []
          emptyDB) =
      saveDB [{ id := 1, name := some "Halo", genres := [7], platforms := [3] }]
        [{ id := 7, name := some "Shooter" }] [{ id := 3, name := some "Xbox" }] [] [] []
        emptyDB :=
  (saveDB_idempotent [{ id := 1, name := some "Halo", genres := [7], platforms := [3] }]
    [{ id := 7, name := some "Shooter" }] [{ id := 3, name := some "Xbox" }] [] [] []
    emptyDB (by decide)).1

theorem runOps_none (ops : List SqlOp) (i : Nat) (db : DB) :
    runOps none ops i db = (applyOps ops db, ops.map Effect.exec, true) := by
  induction ops generalizing i db with
  | nil => rfl
  | cons op rest ih =>
    simp [runOps, ih, applyOps_cons]

theorem commitCount_nil : commitCount [] = 0 := rfl

theorem commitCount_append (a b : List Effect) :
    commitCount (a ++ b) = commitCount a + commitCount b := by
  simp [commitCount, List.filter_append]

theorem commitCount_exec_map (ops : List SqlOp) :
    commitCount (ops.map Effect.exec) = 0 := by
  induction ops with
  | nil => rfl
  | cons op rest ih => simp [commitCount, isCommit, List.filter_cons]

theorem runOps_no_commit (failAt : Option Nat) (ops : List SqlOp) (i : Nat) (db : DB) :
    commitCount (runOps failAt ops i db).2.1 = 0 := by
  induction ops generalizing i db with
  | nil => rfl
  | cons op rest ih =>
    by_cases hf : failAt = some i
    · simp [runOps, hf, commitCount_nil]
    · simpa [runOps, hf, commitCount, isCommit, List.filter_cons] using ih (i + 1) (applyOp op db)

theorem runOps_fails (j : Nat) (ops : List SqlOp) (i : Nat) (db : DB)
    (h1 : i ≤ j) (h2 : j < i + ops.length) :
    (runOps (some j) ops i db).2.2 = false := by
  induction ops generalizing i db with
  | nil => simp at h2; omega
  | cons op rest ih =>
    by_cases hf : j = i
    · subst hf
      simp [runOps]
    · have hne : (some j : Option Nat) ≠ some i := by
        intro h
        exact hf (Option.some.injEq .. ▸ h)
      simp only [runOps, if_neg hne]
      exact ih (i + 1) (applyOp op db) (by omega) (by simp at h2; omega)

/-- C4: The bulk upsert is atomic: `save_to_sqlite` performs exactly one
commit, at the very end of the whole batch (the trace is all the statement
executions followed by a single final commit, and on success the durable
state is exactly the batch applied to the pre-pass state); if any write in
the pass fails (raises), the run performs no commit at all and the
persistent store is left in its pre-pass state — never partially
committed. -/
theorem save_to_sqlite_atomic (conn : Conn) (games : List GameRec)
    (genres platforms : List NameRec) (companies : List CompanyRec)
    (covers screenshots : List ImageRec) (failAt : Option Nat) :
    (failAt = none →
      (save_to_sqlite none conn games genres platforms companies covers screenshots).2 =
          (saveOps games genres platforms companies covers screenshots).map Effect.exec
            ++ [Effect.commit] ∧
        commitCount
          (save_to_sqlite none conn games genres platforms companies covers screenshots).2 = 1 ∧
        (save_to_sqlite none conn games genres platforms companies covers screenshots).1.durable =
          applyOps (saveOps games genres platforms companies covers screenshots) conn.pending) ∧
    (∀ j, failAt = some j →
      j < (saveOps games genres platforms companies covers screenshots).length →
      (save_to_sqlite failAt conn games genres platforms companies covers screenshots).1.durable =
          conn.durable ∧
        commitCount
          (save_to_sqlite failAt conn games genres platforms companies covers screenshots).2 = 0) := by
  constructor
  · intro _
    refine ⟨?_, ?_, ?_⟩ <;>
      simp [save_to_sqlite, runOps_none, commitCount_append, commitCount_exec_map,
        commitCount, isCommit]
  · intro j hj hlt
    subst hj
    have hfail := runOps_fails j
      (saveOps games genres platforms companies covers screenshots) 0 conn.pending
      (Nat.zero_le j) (by simpa using hlt)
    constructor
    · simp [save_to_sqlite, hfail]
    · simp only [save_to_sqlite, hfail, Bool.false_eq_true, if_false]
      exact runOps_no_commit _ _ _ _

/-- Witness for C4: failing the very first statement of a one-genre batch
leaves the durable store untouched and commits nothing. -/
theorem save_to_sqlite_atomic_witness :
    (save_to_sqlite (some 0) ⟨emptyDB, emptyDB⟩ [] [{ id := 7 }] [] [] [] []).1.durable =
        emptyDB ∧
      commitCount (save_to_sqlite (some 0) ⟨emptyDB, emptyDB⟩ [] [{ id := 7 }] [] [] [] []).2 = 0 :=
  (save_to_sqlite_atomic ⟨emptyDB, emptyDB⟩ [] [{ id := 7 }] [] [] [] [] (some 0)).2 0 rfl
    (by decide)

/-- C7: End-to-end staging counts: for an input of exactly 2 games that
reference 1 shared genre id and 2 distinct platform ids (with the
corresponding 1 genre and 2 platform lookup records), one bulk upsert into
an empty store produces exactly 2 game rows, 1 genre row, 2 platform rows,
2 game-genre association rows (both with the same genre id 7), and 2
game-platform association rows. -/
theorem saveDB_end_to_end_counts :
    (saveDB
        [{ id := 101, name := some "A", genres := [7], platforms := [3] },
          { id := 102, name := some "B", genres := [7], platforms := [4] }]
        [{ id := 7, name := some "Strategy" }]
        [{ id := 3, name := some "PC" }, { id := 4, name := some "Mac" }]
        [] [] [] emptyDB).igdb_games.length = 2 ∧
    (saveDB
        [{ id := 101, name := some "A", genres := [7], platforms := [3] },
          { id := 102, name := some "B", genres := [7], platforms := [4] }]
        [{ id := 7, name := some "Strategy" }]
        [{ id := 3, name := some "PC" }, { id := 4, name := some "Mac" }]
        [] [] [] emptyDB).igdb_genres.length = 1 ∧
    (saveDB
        [{ id := 101, name := some "A", genres := [7], platforms := [3] },
          { id := 102, name := some "B", genres := [7], platforms := [4] }]
        [{ id := 7, name := some "Strategy" }]
        [{ id := 3, name := some "PC" }, { id := 4, name := some "Mac" }]
        [] [] [] emptyDB).igdb_platforms.length = 2 ∧
    (saveDB
        [{ id := 101, name := some "A", genres := [7], platforms := [3] },
          { id := 102, name := some "B", genres := [7], platforms := [4] }]
        [{ id := 7, name := some "Strategy" }]
        [{ id := 3, name := some "PC" }, { id := 4, name := some "Mac" }]
        [] [] [] emptyDB).game_genres = [(101, 7), (102, 7)] ∧
    (saveDB
        [{ id := 101, name := some "A", genres := [7], platforms := [3] },
          { id := 102, name := some "B", genres := [7], platforms := [4] }]
        [{ id := 7, name := some "Strategy" }]
        [{ id := 3, name := some "PC" }, { id := 4, name := some "Mac" }]
        [] [] [] emptyDB).game_platforms.length = 2 := by
  decide

/-- C8: The game-company association table stores the raw values found in
each game's `involved_companies` list, unvalidated: for every game `g` of
the batch and every element `x` of `g.involved_companies`, the bulk upsert
puts the pair `(g.id, x)` into `game_companies` as-is — nothing checks
that `x` is a company id rather than an involved-company join-record id. -/
theorem game_companies_stores_raw (db : DB) (games : List GameRec)
    (genres platforms : List NameRec) (companies : List CompanyRec)
    (covers screenshots : List ImageRec) (g : GameRec) (x : Nat)
    (hg : g ∈ games) (hx : x ∈ g.involved_companies) :
    (g.id, x) ∈
      (saveDB games genres platforms companies covers screenshots db).game_companies := by
  have hop : SqlOp.insertGameCompany (g.id, x) ∈
      saveOps games genres platforms companies covers screenshots := by
    unfold saveOps
    refine List.mem_append_right _ ?_
    refine List.mem_flatten.mpr ⟨gameOps g, List.mem_map_of_mem gameOps hg, ?_⟩
    unfold gameOps
    refine List.mem_cons_of_mem _ ?_
    refine List.mem_append_left _ (List.mem_append_right _ ?_)
    exact List.mem_map_of_mem _ hx
  have hpair : (g.id, x) ∈
      (saveOps games genres platforms companies covers screenshots).filterMap
        companyPairOf :=
    List.mem_filterMap.mpr ⟨SqlOp.insertGameCompany (g.id, x), hop, rfl⟩
  show (g.id, x) ∈
    (applyOps (saveOps games genres platforms companies covers screenshots) db).game_companies
  rw [game_companies_applyOps]
  exact mem_applyInserts_of_mem_ops _ _ _ hpair

/-- Witness for C8: game 9 lists raw involved-company value 55; the pair
(9, 55) lands in game_companies. -/
theorem game_companies_stores_raw_witness :
    ((9 : Nat), (55 : Nat)) ∈
      (saveDB [{ id := 9, involved_companies := [55] }] [] [] [] [] [] emptyDB).game_companies :=
  game_companies_stores_raw emptyDB [{ id := 9, involved_companies := [55] }] [] [] [] [] []
    { id := 9, involved_companies := [55] } 55 (by decide) (by decide)

theorem gameOps_eraseCover (g : GameRec) : gameOps (eraseCover g) = gameOps g := rfl

theorem coverKV_gameOps (g : GameRec) (op : SqlOp) (h : op ∈ gameOps g) :
    coverKV op = none := by
  unfold gameOps at h
  rcases List.mem_cons.mp h with heq | hmem
  · subst heq; rfl
  · rcases List.mem_append.mp hmem with h1 | h4
    · rcases List.mem_append.mp h1 with h2 | h3
      · rcases List.mem_append.mp h2 with h5 | h6
        · obtain ⟨a, _, rfl⟩ := List.mem_map.mp h5; rfl
        · obtain ⟨a, _, rfl⟩ := List.mem_map.mp h6; rfl
      · obtain ⟨a, _, rfl⟩ := List.mem_map.mp h3; rfl
    · obtain ⟨a, _, rfl⟩ := List.mem_map.mp h4; rfl

theorem saveOps_filterMap_coverKV (games : List GameRec)
    (genres platforms : List NameRec) (companies : List CompanyRec)
    (covers screenshots : List ImageRec) :
    (saveOps games genres platforms companies covers screenshots).filterMap coverKV =
      covers.map fun c => (c.id, (⟨c.url, c.width, c.height⟩ : ImageRow)) := by
  unfold saveOps
  rw [List.filterMap_append, List.filterMap_append, List.filterMap_append,
    List.filterMap_append, List.filterMap_append]
  have h1 : (genres.map fun g => SqlOp.upsertGenre g.id g.name).filterMap coverKV = [] :=
    List.filterMap_eq_nil_iff.mpr (by
      intro op hop
      obtain ⟨a, _, rfl⟩ := List.mem_map.mp hop
      rfl)
  have h2 : (platforms.map fun p => SqlOp.upsertPlatform p.id p.name).filterMap coverKV = [] :=
    List.filterMap_eq_nil_iff.mpr (by
      intro op hop
      obtain ⟨a, _, rfl⟩ := List.mem_map.mp hop
      rfl)
  have h3 : (companies.map fun c => SqlOp.upsertCompany c.id (companyName c)).filterMap
      coverKV = [] :=
    List.filterMap_eq_nil_iff.mpr (by
      intro op hop
      obtain ⟨a, _, rfl⟩ := List.mem_map.mp hop
      rfl)
  have h5 : (screenshots.map fun s =>
      SqlOp.upsertScreenshot s.id ⟨s.url, s.width, s.height⟩).filterMap coverKV = [] :=
    List.filterMap_eq_nil_iff.mpr (by
      intro op hop
      obtain ⟨a, _, rfl⟩ := List.mem_map.mp hop
      rfl)
  have h6 : ((games.map gameOps).flatten).filterMap coverKV = [] :=
    List.filterMap_eq_nil_iff.mpr (by
      intro op hop
      obtain ⟨l, hl, hop2⟩ := List.mem_flatten.mp hop
      obtain ⟨g, _, rfl⟩ := List.mem_map.mp hl
      exact coverKV_gameOps g op hop2)
  have h4 : (covers.map fun cov =>
      SqlOp.upsertCover cov.id ⟨cov.url, cov.width, cov.height⟩).filterMap coverKV =
      covers.map fun c => (c.id, (⟨c.url, c.width, c.height⟩ : ImageRow)) := by
    induction covers with
    | nil => rfl
    | cons hd tl ih => simp [List.filterMap_cons, coverKV, ih]
  rw [h1, h2, h3, h4, h5, h6]
  simp

/-- C9: A game's cover reference is never persisted: the games-table row
contains no cover column and there is no game-cover association table, so
the result of the bulk upsert is unchanged under arbitrary modification of
the games' `cover` fields, and the rows of the covers table come only from
the separately supplied `covers` argument. -/
theorem saveDB_ignores_game_cover (db : DB) (games games2 : List GameRec)
    (genres platforms : List NameRec) (companies : List CompanyRec)
    (covers screenshots : List ImageRec)
    (h : games.map eraseCover = games2.map eraseCover) :
    saveDB games genres platforms companies covers screenshots db =
      saveDB games2 genres platforms companies covers screenshots db ∧
    (saveDB games genres platforms companies covers screenshots db).igdb_covers =
      applyUpserts (covers.map fun c => (c.id, (⟨c.url, c.width, c.height⟩ : ImageRow)))
        db.igdb_covers := by
  have hcomp : gameOps ∘ eraseCover = gameOps := funext fun g => gameOps_eraseCover g
  have hmaps : games.map gameOps = games2.map gameOps := by
    have e1 : games.map gameOps = (games.map eraseCover).map gameOps := by
      rw [List.map_map, hcomp]
    have e2 : games2.map gameOps = (games2.map eraseCover).map gameOps := by
      rw [List.map_map, hcomp]
    rw [e1, e2, h]
  constructor
  · unfold saveDB saveOps
    rw [hmaps]
  · show (applyOps (saveOps games genres platforms companies covers screenshots)
        db).igdb_covers = _
    rw [igdb_covers_applyOps, saveOps_filterMap_coverKV]

/-- Witness for C9: a game with `cover := some 99` saves identically to the
same game with no cover, and the covers table of the result is the upsert
of the covers argument alone. -/
theorem saveDB_ignores_game_cover_witness :
    saveDB [{ id := 1, cover := some 99 }] [] [] [] [] [] emptyDB =
      saveDB [{ id := 1 }] [] [] [] [] [] emptyDB :=
  (saveDB_ignores_game_cover emptyDB [{ id := 1, cover := some 99 }] [{ id := 1 }]
    [] [] [] [] [] (by decide)).1

/-- C5: Checkpoint read/write contract: for every key, `get_state` returns
the supplied default when no `sync_state` row for that key exists (it is a
total function — it never fails), and after `set_state k v` a subsequent
`get_state k d` returns the stored value `v` regardless of any earlier
writes to `k` (the key stays a singleton row — no duplicate key is
introduced — and the write is committed: durable equals pending before
`set_state` returns). -/
theorem sync_state_contract (conn : Conn) (k : String) (d : Option String) :
    (lookupKey k conn.pending.sync_state = none → get_state conn k d = d) ∧
    (∀ v, get_state (set_state conn k v) k d = some v) ∧
    (∀ v, (keysOf conn.pending.sync_state).Nodup →
      (keysOf (set_state conn k v).pending.sync_state).Nodup) ∧
    (∀ v, (set_state conn k v).durable = (set_state conn k v).pending) := by
  refine ⟨?_, ?_, ?_, ?_⟩
  · intro h
    unfold get_state
    rw [h]
  · intro v
    unfold get_state set_state
    simp only
    rw [lookupKey_upsertRow, if_pos rfl]
  · intro v h
    exact keysOf_nodup_upsertRow k v _ h
  · intro v
    rfl

/-- Witness for C5: on a fresh store the default comes back; after writing
"123" under the checkpoint key, reading it back yields "123". -/
theorem sync_state_contract_witness :
    get_state ⟨emptyDB, emptyDB⟩ "last_sync_timestamp" none = none ∧
      get_state (set_state ⟨emptyDB, emptyDB⟩ "last_sync_timestamp" "123")
        "last_sync_timestamp" none = some "123" :=
  ⟨(sync_state_contract ⟨emptyDB, emptyDB⟩ "last_sync_timestamp" none).1 rfl,
    (sync_state_contract ⟨emptyDB, emptyDB⟩ "last_sync_timestamp" none).2.1 "123"⟩

/-- C6 counterexample: 204 No Content is a success HTTP status, yet
`igdb_post` raises (returns the error) instead of returning the parsed
body: the source tests `status_code == 200`, not success. -/
theorem igdb_post_success_claim_cex :
    isHttpSuccess 204 ∧
      (igdb_post (fun _ =>
        ({ status_code := 204, text := "", json := ([] : List Nat) }))).result =
        Except.error (igdbErrorText 204 "") := by
  constructor
  · decide
  · rfl

/-- C6 (amended): for every call, `igdb_post` issues exactly one request
(no retry); a status of exactly 200 returns the parsed JSON body, and any
other status — including other 2xx success statuses — fails immediately
with an error carrying the status code and the response body. -/
theorem igdb_post_error_semantics {α : Type} (send : Unit → HttpResponse α) :
    (igdb_post send).requests = 1 ∧
    ((send ()).status_code = 200 → (igdb_post send).result = Except.ok (send ()).json) ∧
    ((send ()).status_code ≠ 200 →
      (igdb_post send).result =
        Except.error (igdbErrorText (send ()).status_code (send ()).text)) := by
  refine ⟨rfl, ?_, ?_⟩
  · intro h
    unfold igdb_post
    simp [h]
  · intro h
    unfold igdb_post
    simp [h]

/-- Witness for C6: a 404 response produces the error message carrying the
status code and body. -/
theorem igdb_post_error_semantics_witness :
    (igdb_post (fun _ =>
      ({ status_code := 404, text := "Not Found", json := ([] : List Nat) }))).result =
      Except.error (igdbErrorText 404 "Not Found") :=
  (igdb_post_error_semantics (fun _ =>
    ({ status_code := 404, text := "Not Found", json := ([] : List Nat) }))).2.2 (by decide)

theorem fetchGamesAux_since_zero (post : String → List GameRec) :
    ∀ (fuel offset : Nat),
      fetchGamesAux post (some 0) fuel offset = fetchGamesAux post none fuel offset
  | 0, _ => rfl
  | fuel + 1, offset => by
    have hq : gamesQuery (some 0) offset = gamesQuery none offset := rfl
    simp only [fetchGamesAux]
    rw [fetchGamesAux_since_zero post fuel (offset + FETCH_LIMIT), hq]

/-- C10: Edge case of the incremental filter: calling `fetch_games` with
`since_updated_at = 0` (falsy in Python) issues queries with no `where`
clause and behaves identically to `since_updated_at = None` — an
unfiltered full fetch — rather than filtering by `updated_at >= 0`. -/
theorem fetch_games_since_zero (post : String → List GameRec) (fuel : Nat) :
    gamesWhereClause (some 0) = "" ∧
    (∀ offset, gamesQuery (some 0) offset = gamesQuery none offset) ∧
    fetch_games post (some 0) fuel = fetch_games post none fuel :=
  ⟨rfl, fun _ => rfl, fetchGamesAux_since_zero post fuel 0⟩

theorem fetchGamesAux_pages (post : String → List GameRec) (since : Option Int) :
    ∀ (k : Nat) (pages : Nat → List GameRec) (off fuel : Nat), k + 1 ≤ fuel →
      (∀ i, i ≤ k → post (gamesQuery since (off + i * FETCH_LIMIT)) =
        if i < k then pages i else []) →
      (∀ i, i < k → (pages i).length = FETCH_LIMIT) →
      fetchGamesAux post since fuel off =
        ((List.range (k + 1)).map (fun i => gamesQuery since (off + i * FETCH_LIMIT)),
          ((List.range k).map pages).flatten) := by
  intro k
  induction k with
  | zero =>
    intro pages off fuel hfuel hpost _
    obtain ⟨f, rfl⟩ : ∃ f, fuel = f + 1 := ⟨fuel - 1, by omega⟩
    have hbatch : post (gamesQuery since off) = [] := by
      have := hpost 0 (Nat.le_refl 0)
      simpa using this
    simp [fetchGamesAux, hbatch, List.range_succ]
  | succ k ih =>
    intro pages off fuel hfuel hpost hlen
    obtain ⟨f, rfl⟩ : ∃ f, fuel = f + 1 := ⟨fuel - 1, by omega⟩
    have hbatch : post (gamesQuery since off) = pages 0 := by
      have := hpost 0 (Nat.zero_le _)
      simpa using this
    have hne : (pages 0).isEmpty = false := by
      have h0 := hlen 0 (Nat.succ_pos k)
      cases hp : pages 0 with
      | nil => rw [hp] at h0; simp [FETCH_LIMIT] at h0
      | cons a l => rfl
    have hrec := ih (fun i => pages (i + 1)) (off + FETCH_LIMIT) f (by omega)
      (by
        intro i hi
        have := hpost (i + 1) (by omega)
        have harg : off + (i + 1) * FETCH_LIMIT = off + FETCH_LIMIT + i * FETCH_LIMIT := by
          ring
        rw [harg] at this
        simpa [Nat.succ_lt_succ_iff] using this)
      (by
        intro i hi
        exact hlen (i + 1) (by omega))
    have hq : (List.range (k + 1 + 1)).map (fun i => gamesQuery since (off + i * FETCH_LIMIT)) =
        gamesQuery since off ::
          (List.range (k + 1)).map
            (fun i => gamesQuery since (off + FETCH_LIMIT + i * FETCH_LIMIT)) := by
      rw [List.range_succ_eq_map, List.map_cons, List.map_map]
      have h1 : gamesQuery since (off + 0 * FETCH_LIMIT) = gamesQuery since off := by
        norm_num
      have h2 : (List.range (k + 1)).map
            ((fun i => gamesQuery since (off + i * FETCH_LIMIT)) ∘ Nat.succ) =
          (List.range (k + 1)).map
            (fun i => gamesQuery since (off + FETCH_LIMIT + i * FETCH_LIMIT)) := by
        apply List.map_congr_left
        intro i _
        simp only [Function.comp_apply]
        rw [show off + FETCH_LIMIT + i * FETCH_LIMIT = off + (i + 1) * FETCH_LIMIT from by ring]
      exact congrArg₂ List.cons h1 h2
    have hg : ((List.range (k + 1)).map pages).flatten =
        pages 0 ++ ((List.range k).map (fun i => pages (i + 1))).flatten := by
      rw [List.range_succ_eq_map, List.map_cons, List.map_map, List.flatten_cons]
      rfl
    simp only [fetchGamesAux, hbatch, hne, Bool.false_eq_true, if_false, hrec,
      Prod.mk.injEq]
    exact ⟨hq.symm, hg.symm⟩

/-- C2: Pagination terminates exactly on the first empty page: for every
remote source that yields exactly `k` full pages of `FETCH_LIMIT` (= 500)
results followed by an empty page, `fetch_games` issues exactly `k + 1`
requests, at offsets `0, 500, ..., k * 500`, and returns exactly
`k * FETCH_LIMIT` records, the pages concatenated in request order. -/
theorem fetch_games_pagination (post : String → List GameRec) (since : Option Int)
    (pages : Nat → List GameRec) (k fuel : Nat) (hfuel : k + 1 ≤ fuel)
    (hpost : ∀ i, i ≤ k →
      post (gamesQuery since (i * FETCH_LIMIT)) = if i < k then pages i else [])
    (hlen : ∀ i, i < k → (pages i).length = FETCH_LIMIT) :
    (fetch_games post since fuel).1 =
        (List.range (k + 1)).map (fun i => gamesQuery since (i * FETCH_LIMIT)) ∧
      (fetch_games post since fuel).1.length = k + 1 ∧
      (fetch_games post since fuel).2 = ((List.range k).map pages).flatten ∧
      (fetch_games post since fuel).2.length = k * FETCH_LIMIT := by
  have haux := fetchGamesAux_pages post since k pages 0 fuel hfuel
    (by
      intro i hi
      simpa using hpost i hi)
    hlen
  have h1 : (fetch_games post since fuel).1 =
      (List.range (k + 1)).map (fun i => gamesQuery since (i * FETCH_LIMIT)) := by
    rw [fetch_games, haux]
    simp
  have h2 : (fetch_games post since fuel).2 = ((List.range k).map pages).flatten := by
    rw [fetch_games, haux]
  refine ⟨h1, ?_, h2, ?_⟩
  · rw [h1, List.length_map, List.length_range]
  · rw [h2, List.length_flatten, List.map_map]
    have hrepl : (List.range k).map ((fun l => List.length l) ∘ pages) =
        List.replicate k FETCH_LIMIT := by
      apply List.eq_replicate_iff.mpr
      constructor
      · simp
      · intro b hb
        obtain ⟨i, hi, rfl⟩ := List.mem_map.mp hb
        exact hlen i (List.mem_range.mp hi)
    rw [hrepl, List.sum_replicate, smul_eq_mul]

/-- Witness for C2 at `k = 0`: a source whose very first page is empty
costs exactly one request (offset 0) and yields no records. -/
theorem fetch_games_pagination_witness :
    (fetch_games (fun _ => []) none 1).1 =
        (List.range 1).map (fun i => gamesQuery none (i * FETCH_LIMIT)) ∧
      (fetch_games (fun _ => []) none 1).2.length = 0 * FETCH_LIMIT :=
  ⟨(fetch_games_pagination (fun _ => []) none (fun _ => []) 0 1 (Nat.le_refl 1)
      (fun i _ => by simp) (fun i hi => absurd hi (Nat.not_lt_zero i))).1,
    (fetch_games_pagination (fun _ => []) none (fun _ => []) 0 1 (Nat.le_refl 1)
      (fun i _ => by simp) (fun i hi => absurd hi (Nat.not_lt_zero i))).2.2.2⟩

theorem chunksOf_flatten : ∀ l : List Nat, (chunksOf l).flatten = l
  | [] => by simp [chunksOf]
  | a :: rest => by
    rw [chunksOf, List.flatten_cons, chunksOf_flatten ((a :: rest).drop CHUNK),
      List.take_append_drop]
termination_by l => l.length
decreasing_by simp [CHUNK]; omega

theorem chunksOf_length :
    ∀ l : List Nat, (chunksOf l).length = (l.length + (CHUNK - 1)) / CHUNK
  | [] => by simp [chunksOf, CHUNK]
  | a :: rest => by
    rw [chunksOf, List.length_cons, chunksOf_length ((a :: rest).drop CHUNK)]
    simp only [List.length_drop, List.length_cons, CHUNK]
    omega
termination_by l => l.length
decreasing_by simp [CHUNK]; omega

theorem flatten_map_filter (p : Nat → Bool) (L : List (List Nat)) :
    (L.map (fun ch => ch.filter p)).flatten = L.flatten.filter p := by
  induction L with
  | nil => rfl
  | cons hd tl ih =>
    rw [List.map_cons, List.flatten_cons, List.flatten_cons, List.filter_append, ih]

theorem flatten_map_filter_map {α : Type} (p : Nat → Bool) (f : Nat → α)
    (L : List (List Nat)) :
    (L.map (fun ch => (ch.filter p).map f)).flatten = (L.flatten.filter p).map f := by
  induction L with
  | nil => rfl
  | cons hd tl ih =>
    rw [List.map_cons, List.flatten_cons, List.flatten_cons, List.filter_append,
      List.map_append, ih]

/-- C3: Chunked lookup is complete and request-minimal: for an id list
whose deduplication (`list(set(ids))`) has `n` elements, `fetch_lookup`
issues exactly `⌈n / CHUNK⌉` requests — duplicates are removed first and
add no requests, and the deduplicated list carries exactly the distinct
input ids — and returns the union of all chunk results; when the remote
returns, for each queried chunk, exactly its ids that are present
remotely, the result covers exactly the present distinct ids, with
remotely-absent ids silently omitted.  An empty id list issues zero
requests and returns an empty list. -/
theorem fetch_lookup_chunked {α : Type} (post : String → List α) (ids : List Nat)
    (present : Nat → Bool) (f : Nat → α)
    (hpost : ∀ ch ∈ chunksOf ids.dedup,
      post (lookupQuery ch) = (ch.filter present).map f) :
    (fetch_lookup post ids).1 = (chunksOf ids.dedup).map lookupQuery ∧
    (fetch_lookup post ids).1.length = (ids.dedup.length + (CHUNK - 1)) / CHUNK ∧
    (fetch_lookup post ids).2 = (ids.dedup.filter present).map f ∧
    ids.dedup.Nodup ∧
    (∀ i, i ∈ ids.dedup ↔ i ∈ ids) ∧
    fetch_lookup post ([] : List Nat) = ([], []) := by
  have hcore : fetch_lookup post ids =
      ((chunksOf ids.dedup).map lookupQuery,
        ((chunksOf ids.dedup).map fun ch => post (lookupQuery ch)).flatten) := by
    by_cases h : ids.isEmpty
    · have h' : ids = [] := List.isEmpty_iff.mp h
      subst h'
      rw [List.dedup_nil, show chunksOf ([] : List Nat) = [] from by rw [chunksOf]]
      simp [fetch_lookup]
    · simp [fetch_lookup, h]
  have hres : ((chunksOf ids.dedup).map fun ch => post (lookupQuery ch)).flatten =
      (ids.dedup.filter present).map f := by
    have hm : (chunksOf ids.dedup).map (fun ch => post (lookupQuery ch)) =
        (chunksOf ids.dedup).map (fun ch => (ch.filter present).map f) :=
      List.map_congr_left hpost
    rw [hm, flatten_map_filter_map, chunksOf_flatten]
  refine ⟨?_, ?_, ?_, List.nodup_dedup ids, fun i => List.mem_dedup, ?_⟩
  · rw [hcore]
  · rw [hcore]
    simp [chunksOf_length]
  · rw [hcore]
    exact hres
  · rfl

/-- Witness for C3: three ids with one duplicate (two distinct), none
present remotely: one request, empty result; and the empty-input
short-circuit. -/
theorem fetch_lookup_chunked_witness :
    (fetch_lookup (fun _ => ([] : List Nat)) [5, 6, 5]).1.length =
        (([5, 6, 5] : List Nat).dedup.length + (CHUNK - 1)) / CHUNK ∧
      (fetch_lookup (fun _ => ([] : List Nat)) [5, 6, 5]).2 =
        (([5, 6, 5] : List Nat).dedup.filter (fun _ => false)).map (fun i => i) ∧
      fetch_lookup (fun _ => ([] : List Nat)) ([] : List Nat) = ([], []) :=
  ⟨(fetch_lookup_chunked (fun _ => []) [5, 6, 5] (fun _ => false) (fun i => i)
      (fun ch _ => by simp)).2.1,
    (fetch_lookup_chunked (fun _ => []) [5, 6, 5] (fun _ => false) (fun i => i)
      (fun ch _ => by simp)).2.2.1,
    (fetch_lookup_chunked (fun _ => []) [5, 6, 5] (fun _ => false) (fun i => i)
      (fun ch _ => by simp)).2.2.2.2.2⟩
